import Mathlib

/-!
# Verification of AiCryptoBot core subsystems

Shallow embedding, in Lean 4, of the risk-managed position lifecycle
(`src/risk/risk_manager.py`), the ensemble signal combiner
(`src/ml/ensemble_predictor.py`), the walk-forward backtesting engine
(`src/backtesting/backtest.py`) and the live trading loop
(`src/trading/executor.py`), together with theorems settling the
specification's claims about them.

Monetary amounts and prices are modelled as exact rationals (`ℚ`); the
Python floats carry the same algebra up to rounding, and every claim in
scope is stated up to floating tolerance, which exact rational equality
refines.
-/

namespace AiCryptoBot

/-! ## RiskManager: position sizing (`risk_manager.py`, lines 89-166) -/

/-- Embedding of `RiskManager._fixed_position_size` (risk_manager.py lines
89-127).  `capital` is `self.current_capital`, `rpt` is
`self.risk_per_trade`, `mps` is `self.max_position_size`.  Returns the
pair `(position_size_usdt, quantity_coins)`. -/
def fixedPositionSize (capital rpt mps entry stop : ℚ) : ℚ × ℚ :=
  let riskAmount := capital * rpt
  let priceRisk := |entry - stop|
  let size0 := if priceRisk = 0 then capital * (1/100)
               else riskAmount / (priceRisk / entry)
  let positionSize := min size0 (capital * mps)
  (positionSize, positionSize / entry)

/-- Embedding of `RiskManager.calculate_stop_loss` (risk_manager.py lines
168-192); `isLong = true` models `direction == 'long'`. -/
def calculateStopLoss (entry atr slMult : ℚ) (isLong : Bool) : ℚ :=
  if isLong then entry - atr * slMult else entry + atr * slMult

/-- Embedding of `RiskManager.calculate_take_profit` (risk_manager.py lines
194-218). -/
def calculateTakeProfit (entry atr tpMult : ℚ) (isLong : Bool) : ℚ :=
  if isLong then entry + atr * tpMult else entry - atr * tpMult

/-- C2: for `entry > 0`, `stop ≥ 0` with `stop ≠ entry` and capital `C > 0`,
the fixed-fractional method returns `(position_size, quantity)` with
`quantity = position_size / entry` and
`position_size = min (C * rpt / (|entry - stop| / entry)) (C * mps)`;
hence `quantity * entry ≤ C * mps` always, and when the cap does not bind
`quantity * |entry - stop| = C * rpt` exactly.  Scenario A:
`C = 10000, rpt = 0.01, entry = 40000, stop = 39000, mps = 0.1` yields
notional `1000` and quantity `0.025`. -/
theorem fixed_sizing_formula_c2 (capital rpt mps entry stop : ℚ)
    (hentry : 0 < entry) (hstop : 0 ≤ stop) (hne : stop ≠ entry)
    (hcap : 0 < capital) :
    (fixedPositionSize capital rpt mps entry stop).2
        = (fixedPositionSize capital rpt mps entry stop).1 / entry
    ∧ (fixedPositionSize capital rpt mps entry stop).1
        = min (capital * rpt / (|entry - stop| / entry)) (capital * mps)
    ∧ (fixedPositionSize capital rpt mps entry stop).2 * entry
        ≤ capital * mps
    ∧ (capital * rpt / (|entry - stop| / entry) ≤ capital * mps →
        (fixedPositionSize capital rpt mps entry stop).2 * |entry - stop|
          = capital * rpt)
    ∧ fixedPositionSize 10000 (1/100) (1/10) 40000 39000 = (1000, 1/40) := by
  have hpr : |entry - stop| ≠ 0 := by
    simp only [ne_eq, abs_eq_zero, sub_eq_zero]
    exact fun h => hne h.symm
  have hprpos : 0 < |entry - stop| := lt_of_le_of_ne (abs_nonneg _) (Ne.symm hpr)
  refine ⟨rfl, ?_, ?_, ?_, ?_⟩
  · simp only [fixedPositionSize, if_neg hpr]
  · have h1 : (fixedPositionSize capital rpt mps entry stop).2 * entry
        = (fixedPositionSize capital rpt mps entry stop).1 :=
      div_mul_cancel₀ _ (ne_of_gt hentry)
    rw [h1]
    simp only [fixedPositionSize, if_neg hpr]
    exact min_le_right _ _
  · intro hnb
    simp only [fixedPositionSize, if_neg hpr] at hnb ⊢
    rw [min_eq_left hnb]
    field_simp
    ring
  · norm_num [fixedPositionSize, abs]

/-- Witness for C2 at Scenario A's concrete inputs. -/
theorem fixed_sizing_formula_c2_witness :
    (0:ℚ) < 40000 ∧ (0:ℚ) ≤ 39000 ∧ (39000:ℚ) ≠ 40000 ∧ (0:ℚ) < 10000 ∧
    fixedPositionSize 10000 (1/100) (1/10) 40000 39000 = (1000, 1/40) :=
  ⟨by norm_num, by norm_num, by norm_num, by norm_num,
   (fixed_sizing_formula_c2 10000 (1/100) (1/10) 40000 39000
      (by norm_num) (by norm_num) (by norm_num) (by norm_num)).2.2.2.2⟩

/-- C9: with `stop_loss = entry_price`, the fixed-fractional sizing never
divides by the zero price risk; it returns the minimal notional
`min (capital * 0.01) (capital * mps)` with strictly positive notional and
quantity whenever `entry > 0`, `capital > 0` and `mps > 0`. -/
theorem zero_risk_guard_c9 (capital rpt mps entry : ℚ)
    (hentry : 0 < entry) (hcap : 0 < capital) (hmps : 0 < mps) :
    fixedPositionSize capital rpt mps entry entry
      = (min (capital * (1/100)) (capital * mps),
         min (capital * (1/100)) (capital * mps) / entry)
    ∧ 0 < (fixedPositionSize capital rpt mps entry entry).1
    ∧ 0 < (fixedPositionSize capital rpt mps entry entry).2 := by
  have hbranch : fixedPositionSize capital rpt mps entry entry
      = (min (capital * (1/100)) (capital * mps),
         min (capital * (1/100)) (capital * mps) / entry) := by
    simp [fixedPositionSize]
  have hpos : 0 < min (capital * (1/100)) (capital * mps) :=
    lt_min (by positivity) (mul_pos hcap hmps)
  refine ⟨hbranch, ?_, ?_⟩
  · rw [hbranch]; exact hpos
  · rw [hbranch]; exact div_pos hpos hentry

/-- Witness for C9 at a concrete state: capital 10000, entry 500, mps 0.1. -/
theorem zero_risk_guard_c9_witness :
    (0:ℚ) < 500 ∧ (0:ℚ) < 10000 ∧ (0:ℚ) < 1/10 ∧
    0 < (fixedPositionSize 10000 (1/100) (1/10) 500 500).2 :=
  ⟨by norm_num, by norm_num, by norm_num,
   (zero_risk_guard_c9 10000 (1/100) (1/10) 500
      (by norm_num) (by norm_num) (by norm_num)).2.2⟩

/-! ## RiskManager: position ledger state (`risk_manager.py`, lines 24-62,
220-348) -/

/-- Open position record as built by `RiskManager.add_position`
(risk_manager.py lines 276-285); `isLong` models `direction == 'long'`,
`positionValue` the stored `entry_price * quantity`. -/
structure Position where
  symbol : String
  entryPrice : ℚ
  quantity : ℚ
  stopLoss : ℚ
  takeProfit : ℚ
  isLong : Bool
  positionValue : ℚ
deriving DecidableEq

/-- Mutable state of a `RiskManager` instance (risk_manager.py lines 33-55):
capital tracking, open-position list, daily-trade counter and the date of
the last daily-counter reset (days numbered by `ℕ`). -/
structure RiskState where
  initialCapital : ℚ
  currentCapital : ℚ
  peakCapital : ℚ
  openPositions : List Position
  dailyTrades : ℕ
  lastTradeDate : Option ℕ
deriving DecidableEq

/-- Closed-trade record returned by `RiskManager.close_position`
(risk_manager.py lines 339-348): the popped position augmented with exit
price and realized PnL. -/
structure ClosedTrade where
  pos : Position
  exitPrice : ℚ
  pnl : ℚ
  pnlPct : ℚ
deriving DecidableEq

/-- Embedding of `RiskManager.add_position` (risk_manager.py lines 253-293):
appends the new position and increments the daily counter. -/
def addPosition (s : RiskState) (sym : String) (entry qty sl tp : ℚ)
    (isLong : Bool) : Position × RiskState :=
  let p : Position :=
    ⟨sym, entry, qty, sl, tp, isLong, entry * qty⟩
  (p, { s with openPositions := s.openPositions ++ [p],
               dailyTrades := s.dailyTrades + 1 })

/-- Removal of the first open position with the given symbol, as performed
by the `for i, pos in enumerate(...)` / `pop(i)` loop of
`RiskManager.close_position` (risk_manager.py lines 310-314). -/
def popFirst (sym : String) : List Position → Option (Position × List Position)
  | [] => none
  | p :: rest =>
    if p.symbol = sym then some (p, rest)
    else
      match popFirst sym rest with
      | none => none
      | some (q, l) => some (q, p :: l)

/-- Embedding of `RiskManager.close_position` (risk_manager.py lines
295-348): pops the first matching position, realizes signed PnL, updates
capital, and raises the peak only upward. -/
def closePosition (s : RiskState) (sym : String) (exitPrice : ℚ) :
    Option ClosedTrade × RiskState :=
  match popFirst sym s.openPositions with
  | none => (none, s)
  | some (p, rest) =>
    let pnl := if p.isLong then (exitPrice - p.entryPrice) * p.quantity
               else (p.entryPrice - exitPrice) * p.quantity
    let pnlPct := pnl / p.positionValue * 100
    let newCap := s.currentCapital + pnl
    let newPeak := if s.peakCapital < newCap then newCap else s.peakCapital
    (some ⟨p, exitPrice, pnl, pnlPct⟩,
     { s with currentCapital := newCap,
              peakCapital := newPeak,
              openPositions := rest })

/-- Embedding of `RiskManager.get_current_drawdown` (risk_manager.py lines
350-361). -/
def getCurrentDrawdown (s : RiskState) : ℚ :=
  if s.peakCapital = 0 then 0
  else max 0 ((s.peakCapital - s.currentCapital) / s.peakCapital)

/-- Embedding of `RiskManager.can_open_position` (risk_manager.py lines
220-251).  `maxDD`, `maxOpen`, `maxDaily` are the configured limits,
`today` the current wall-clock date.  Returns the gate verdict together
with the possibly updated state (the daily counter is reset in place when
the date has changed, exactly where the source does it). -/
def canOpenPosition (s : RiskState) (maxDD : ℚ) (maxOpen maxDaily : ℕ)
    (today : ℕ) : Bool × RiskState :=
  if maxDD ≤ getCurrentDrawdown s then (false, s)
  else if maxOpen ≤ s.openPositions.length then (false, s)
  else
    let s1 := if s.lastTradeDate = some today then s
              else { s with dailyTrades := 0, lastTradeDate := some today }
    if maxDaily ≤ s1.dailyTrades then (false, s1)
    else if s1.currentCapital < s1.initialCapital * (1/2) then (false, s1)
    else (true, s1)

/-- One call against the RiskManager ledger: `add_position` or
`close_position`. -/
inductive RiskOp where
  | add (sym : String) (entry qty sl tp : ℚ) (isLong : Bool)
  | close (sym : String) (exitPrice : ℚ)

/-- State after one ledger call. -/
def applyOp (s : RiskState) : RiskOp → RiskState
  | .add sym e q sl tp d => (addPosition s sym e q sl tp d).2
  | .close sym px => (closePosition s sym px).2

/-- State after a sequence of ledger calls. -/
def runOps (s : RiskState) (ops : List RiskOp) : RiskState :=
  ops.foldl applyOp s

theorem le_peak_update (a x : ℚ) : a ≤ if a < x then x else a := by
  split
  · exact le_of_lt (by assumption)
  · exact le_refl a

theorem cap_le_peak_update (a x : ℚ) : x ≤ if a < x then x else a := by
  split
  · exact le_refl x
  · exact le_of_not_lt (by assumption)

theorem peak_update_eq_max (a x : ℚ) : (if a < x then x else a) = max a x := by
  split
  · exact (max_eq_right (le_of_lt (by assumption))).symm
  · exact (max_eq_left (le_of_not_lt (by assumption))).symm

theorem applyOp_peak_le (s : RiskState) (op : RiskOp) :
    s.peakCapital ≤ (applyOp s op).peakCapital := by
  cases op with
  | add sym e q sl tp d => simp [applyOp, addPosition]
  | close sym px =>
    simp only [applyOp]
    cases hpop : popFirst sym s.openPositions with
    | none => simp [closePosition, hpop]
    | some pr =>
      simp only [closePosition, hpop]
      exact le_peak_update _ _

theorem applyOp_cap_le_peak (s : RiskState) (op : RiskOp)
    (h : s.currentCapital ≤ s.peakCapital) :
    (applyOp s op).currentCapital ≤ (applyOp s op).peakCapital := by
  cases op with
  | add sym e q sl tp d => simpa [applyOp, addPosition] using h
  | close sym px =>
    simp only [applyOp]
    cases hpop : popFirst sym s.openPositions with
    | none => simpa [closePosition, hpop] using h
    | some pr =>
      simp only [closePosition, hpop]
      exact cap_le_peak_update _ _

theorem runOps_peak_le (s : RiskState) (ops : List RiskOp) :
    s.peakCapital ≤ (runOps s ops).peakCapital := by
  induction ops generalizing s with
  | nil => simp [runOps]
  | cons op t ih =>
    calc s.peakCapital ≤ (applyOp s op).peakCapital := applyOp_peak_le s op
      _ ≤ (runOps (applyOp s op) t).peakCapital := ih _
      _ = (runOps s (op :: t)).peakCapital := by simp [runOps]

theorem runOps_cap_le_peak (s : RiskState) (ops : List RiskOp)
    (h : s.currentCapital ≤ s.peakCapital) :
    (runOps s ops).currentCapital ≤ (runOps s ops).peakCapital := by
  induction ops generalizing s with
  | nil => simpa [runOps] using h
  | cons op t ih =>
    have := ih (applyOp s op) (applyOp_cap_le_peak s op h)
    simpa [runOps] using this

/-- C7: over any sequence of `add_position`/`close_position` calls the peak
capital never decreases; moreover, whenever capital does not exceed peak
(as in every reachable state), each `close_position` leaves the peak equal
to the maximum of the old peak and the updated capital. -/
theorem peak_capital_monotone_c7 (s : RiskState) (ops : List RiskOp) :
    s.peakCapital ≤ (runOps s ops).peakCapital
    ∧ (∀ op : RiskOp, s.peakCapital ≤ (applyOp s op).peakCapital)
    ∧ (s.currentCapital ≤ s.peakCapital →
        (runOps s ops).currentCapital ≤ (runOps s ops).peakCapital)
    ∧ (s.currentCapital ≤ s.peakCapital → ∀ sym px,
        ((closePosition s sym px).2).peakCapital
          = max s.peakCapital ((closePosition s sym px).2).currentCapital) := by
  refine ⟨runOps_peak_le s ops, fun op => applyOp_peak_le s op,
          runOps_cap_le_peak s ops, fun h sym px => ?_⟩
  cases hpop : popFirst sym s.openPositions with
  | none =>
    simp only [closePosition, hpop]
    exact (max_eq_left h).symm
  | some pr =>
    simp only [closePosition, hpop]
    exact peak_update_eq_max _ _

/-- Witness for C7 at a concrete state and operation sequence. -/
theorem peak_capital_monotone_c7_witness :
    ({ initialCapital := 10000, currentCapital := 10000, peakCapital := 10000,
       openPositions := [], dailyTrades := 0,
       lastTradeDate := none } : RiskState).currentCapital
      ≤ ({ initialCapital := 10000, currentCapital := 10000,
           peakCapital := 10000, openPositions := [], dailyTrades := 0,
           lastTradeDate := none } : RiskState).peakCapital
    ∧ (runOps { initialCapital := 10000, currentCapital := 10000,
                peakCapital := 10000, openPositions := [], dailyTrades := 0,
                lastTradeDate := none }
          [RiskOp.add "BTC/USDT" 40000 (1/40) 39000 41500 true,
           RiskOp.close "BTC/USDT" 39000]).currentCapital
      ≤ (runOps { initialCapital := 10000, currentCapital := 10000,
                  peakCapital := 10000, openPositions := [], dailyTrades := 0,
                  lastTradeDate := none }
          [RiskOp.add "BTC/USDT" 40000 (1/40) 39000 41500 true,
           RiskOp.close "BTC/USDT" 39000]).peakCapital :=
  ⟨le_refl _,
   (peak_capital_monotone_c7 _
      [RiskOp.add "BTC/USDT" 40000 (1/40) 39000 41500 true,
       RiskOp.close "BTC/USDT" 39000]).2.2.1 (le_refl _)⟩

theorem popFirst_eq_none_iff (sym : String) (l : List Position) :
    popFirst sym l = none ↔ ∀ p ∈ l, p.symbol ≠ sym := by
  induction l with
  | nil => simp [popFirst]
  | cons a t ih =>
    by_cases ha : a.symbol = sym
    · simp [popFirst, ha]
    · cases hrec : popFirst sym t with
      | none =>
        simp only [popFirst, if_neg ha, hrec, List.forall_mem_cons]
        simp only [ne_eq] at ih ⊢
        simp [ha, ih.mp hrec]
        exact ih.mp hrec
      | some pr =>
        simp only [popFirst, if_neg ha, hrec, List.forall_mem_cons]
        constructor
        · intro h; exact absurd h (by simp)
        · intro h
          exact absurd (ih.mpr h.2) (by simp [hrec])

theorem popFirst_eq_some (sym : String) (l : List Position)
    (p : Position) (rest : List Position)
    (h : popFirst sym l = some (p, rest)) :
    p.symbol = sym
    ∧ ∃ l1 l2, l = l1 ++ p :: l2 ∧ (∀ q ∈ l1, q.symbol ≠ sym)
        ∧ rest = l1 ++ l2 := by
  induction l generalizing p rest with
  | nil => simp [popFirst] at h
  | cons a t ih =>
    by_cases ha : a.symbol = sym
    · simp only [popFirst, if_pos ha, Option.some.injEq, Prod.mk.injEq] at h
      obtain ⟨hp, hrest⟩ := h
      subst hp; subst hrest
      exact ⟨ha, [], t, by simp, by simp, by simp⟩
    · cases hrec : popFirst sym t with
      | none => simp [popFirst, if_neg ha, hrec] at h
      | some pr =>
        obtain ⟨q, l'⟩ := pr
        simp only [popFirst, if_neg ha, hrec, Option.some.injEq,
          Prod.mk.injEq] at h
        obtain ⟨hp, hrest⟩ := h
        subst hp
        obtain ⟨hsym, l1, l2, ht, hl1, hl'⟩ := ih q l' hrec
        refine ⟨hsym, a :: l1, l2, by simp [ht], ?_, ?_⟩
        · intro x hx
          rcases List.mem_cons.mp hx with hxa | hxl1
          · subst hxa; exact ha
          · exact hl1 x hxl1
        · subst hl'; simp [← hrest]

/-- C8: `close_position` returns `None` exactly when no open position with
the given symbol exists, and then the whole state is unchanged; when a
match exists, exactly the first matching position is removed, the returned
record carries the signed PnL — `(exit - entry) * qty` for long, negated
for short — capital is updated by that PnL, and all other fields of the
state are untouched. -/
theorem close_position_semantics_c8 (s : RiskState) (sym : String) (px : ℚ) :
    ((closePosition s sym px).1 = none ↔
        ∀ p ∈ s.openPositions, p.symbol ≠ sym)
    ∧ ((closePosition s sym px).1 = none → (closePosition s sym px).2 = s)
    ∧ (∀ r : ClosedTrade, (closePosition s sym px).1 = some r →
        r.pos.symbol = sym
        ∧ r.exitPrice = px
        ∧ r.pnl = (if r.pos.isLong then (px - r.pos.entryPrice) * r.pos.quantity
                   else (r.pos.entryPrice - px) * r.pos.quantity)
        ∧ ((closePosition s sym px).2).currentCapital
            = s.currentCapital + r.pnl
        ∧ ((closePosition s sym px).2).dailyTrades = s.dailyTrades
        ∧ ((closePosition s sym px).2).lastTradeDate = s.lastTradeDate
        ∧ ((closePosition s sym px).2).initialCapital = s.initialCapital
        ∧ ∃ l1 l2, s.openPositions = l1 ++ r.pos :: l2
            ∧ (∀ q ∈ l1, q.symbol ≠ sym)
            ∧ ((closePosition s sym px).2).openPositions = l1 ++ l2) := by
  cases hpop : popFirst sym s.openPositions with
  | none =>
    refine ⟨?_, ?_, ?_⟩
    · simp only [closePosition, hpop]
      simp only [true_iff]
      exact (popFirst_eq_none_iff sym s.openPositions).mp hpop
    · intro _; simp [closePosition, hpop]
    · intro r hr; simp [closePosition, hpop] at hr
  | some pr =>
    obtain ⟨p, rest⟩ := pr
    obtain ⟨hsym, l1, l2, hl, hl1, hrest⟩ :=
      popFirst_eq_some sym s.openPositions p rest hpop
    refine ⟨?_, ?_, ?_⟩
    · simp only [closePosition, hpop]
      constructor
      · intro hcontra; exact absurd hcontra (by simp)
      · intro hall
        exact absurd ((popFirst_eq_none_iff sym s.openPositions).mpr hall)
          (by simp [hpop])
    · intro hcontra
      exact absurd hcontra (by simp [closePosition, hpop])
    · intro r hr
      simp only [closePosition, hpop, Option.some.injEq] at hr
      subst hr
      refine ⟨hsym, rfl, rfl, by simp [closePosition, hpop],
        by simp [closePosition, hpop], by simp [closePosition, hpop],
        by simp [closePosition, hpop], l1, l2, hl, hl1, ?_⟩
      simp [closePosition, hpop, hrest]

/-- Witness for C8: concrete one-position state, closed long at 41000 with
PnL `(41000 - 40000) * 0.025 = 25`. -/
theorem close_position_semantics_c8_witness :
    (closePosition
        { initialCapital := 10000, currentCapital := 10000,
          peakCapital := 10000,
          openPositions := [⟨"BTC/USDT", 40000, 1/40, 39000, 41500, true, 1000⟩],
          dailyTrades := 1, lastTradeDate := none }
        "BTC/USDT" 41000).1
      = some ⟨⟨"BTC/USDT", 40000, 1/40, 39000, 41500, true, 1000⟩,
              41000, 25, 5/2⟩
    ∧ ((closePosition
        { initialCapital := 10000, currentCapital := 10000,
          peakCapital := 10000,
          openPositions := [⟨"BTC/USDT", 40000, 1/40, 39000, 41500, true, 1000⟩],
          dailyTrades := 1, lastTradeDate := none }
        "BTC/USDT" 41000).2).currentCapital
      = 10000 + (25 : ℚ) := by
  have heval : (closePosition
      { initialCapital := 10000, currentCapital := 10000,
        peakCapital := 10000,
        openPositions := [⟨"BTC/USDT", 40000, 1/40, 39000, 41500, true, 1000⟩],
        dailyTrades := 1, lastTradeDate := none }
      "BTC/USDT" 41000).1
      = some ⟨⟨"BTC/USDT", 40000, 1/40, 39000, 41500, true, 1000⟩,
              41000, 25, 5/2⟩ := by
    norm_num [closePosition, popFirst]
  refine ⟨heval, ?_⟩
  have := (close_position_semantics_c8
      { initialCapital := 10000, currentCapital := 10000,
        peakCapital := 10000,
        openPositions := [⟨"BTC/USDT", 40000, 1/40, 39000, 41500, true, 1000⟩],
        dailyTrades := 1, lastTradeDate := none }
      "BTC/USDT" 41000).2.2 _ heval
  simpa using this.2.2.2.1

theorem canOpen_state_cases (s : RiskState) (maxDD : ℚ)
    (maxOpen maxDaily today : ℕ) :
    (canOpenPosition s maxDD maxOpen maxDaily today).2 = s
    ∨ (canOpenPosition s maxDD maxOpen maxDaily today).2
        = { s with dailyTrades := 0, lastTradeDate := some today } := by
  by_cases h1 : maxDD ≤ getCurrentDrawdown s
  · left; simp [canOpenPosition, h1]
  · by_cases h2 : maxOpen ≤ s.openPositions.length
    · left; simp [canOpenPosition, h1, h2]
    · by_cases h3 : s.lastTradeDate = some today
      · left
        simp only [canOpenPosition, if_neg h1, if_neg h2, if_pos h3]
        split_ifs <;> rfl
      · right
        simp only [canOpenPosition, if_neg h1, if_neg h2, if_neg h3]
        split_ifs <;> rfl

/-- Concrete RiskManager state used to exercise `can_open_position`:
initial and peak capital 10000, no open positions; capital, daily counter
and last-reset date vary. -/
def sampleRiskState (cap : ℚ) (daily : ℕ) (date : Option ℕ) : RiskState :=
  ⟨10000, cap, 10000, [], daily, date⟩

/-- C10 counterexample: a state in maximal drawdown (capital 8000 against
peak 10000, limit 15%) with a stale `last_trade_date`; the gate returns
early on the drawdown check, so the daily counter is NOT reset to 0 even
though the date has changed — refuting the claim that the reset happens
whenever the stored date differs from today. -/
theorem can_open_no_reset_c10_counterexample :
    (sampleRiskState 8000 7 (some 5)).lastTradeDate ≠ some 6
    ∧ ((canOpenPosition (sampleRiskState 8000 7 (some 5))
          (15/100) 3 10 6).2).dailyTrades = 7
    ∧ ((canOpenPosition (sampleRiskState 8000 7 (some 5))
          (15/100) 3 10 6).2).lastTradeDate = some 5 := by
  refine ⟨by simp [sampleRiskState], ?_, ?_⟩ <;>
    norm_num [canOpenPosition, getCurrentDrawdown, sampleRiskState]

/-- C10 (amended): `can_open_position` never changes capital, peak,
open-position list or initial capital; when the stored date already equals
today it changes nothing at all; and the daily counter is reset (with the
date stamped to today) precisely when the date differs AND the earlier
drawdown and open-position-count checks did not already return. -/
theorem can_open_frame_c10 (s : RiskState) (maxDD : ℚ)
    (maxOpen maxDaily today : ℕ) :
    ((canOpenPosition s maxDD maxOpen maxDaily today).2).currentCapital
        = s.currentCapital
    ∧ ((canOpenPosition s maxDD maxOpen maxDaily today).2).peakCapital
        = s.peakCapital
    ∧ ((canOpenPosition s maxDD maxOpen maxDaily today).2).openPositions
        = s.openPositions
    ∧ ((canOpenPosition s maxDD maxOpen maxDaily today).2).initialCapital
        = s.initialCapital
    ∧ (s.lastTradeDate = some today →
        (canOpenPosition s maxDD maxOpen maxDaily today).2 = s)
    ∧ (getCurrentDrawdown s < maxDD → s.openPositions.length < maxOpen →
        s.lastTradeDate ≠ some today →
        ((canOpenPosition s maxDD maxOpen maxDaily today).2).dailyTrades = 0
        ∧ ((canOpenPosition s maxDD maxOpen maxDaily today).2).lastTradeDate
            = some today) := by
  have hframe := canOpen_state_cases s maxDD maxOpen maxDaily today
  refine ⟨?_, ?_, ?_, ?_, ?_, ?_⟩
  · rcases hframe with h | h <;> rw [h]
  · rcases hframe with h | h <;> rw [h]
  · rcases hframe with h | h <;> rw [h]
  · rcases hframe with h | h <;> rw [h]
  · intro hdate
    by_cases h1 : maxDD ≤ getCurrentDrawdown s
    · simp [canOpenPosition, h1]
    · by_cases h2 : maxOpen ≤ s.openPositions.length
      · simp [canOpenPosition, h1, h2]
      · simp only [canOpenPosition, if_neg h1, if_neg h2, if_pos hdate]
        split_ifs <;> rfl
  · intro h1 h2 h3
    simp only [canOpenPosition, if_neg (not_le.mpr h1),
      if_neg (not_le.mpr h2), if_neg h3]
    split_ifs <;> simp

/-- Witness for C10 (amended) at a concrete state where the reset branch is
reached: drawdown 0, no open positions, stale date. -/
theorem can_open_frame_c10_witness :
    getCurrentDrawdown (sampleRiskState 10000 7 (some 5)) < 15/100
    ∧ (sampleRiskState 10000 7 (some 5)).openPositions.length < 3
    ∧ (sampleRiskState 10000 7 (some 5)).lastTradeDate ≠ some 6
    ∧ ((canOpenPosition (sampleRiskState 10000 7 (some 5))
          (15/100) 3 10 6).2).dailyTrades = 0 := by
  have hdd : getCurrentDrawdown (sampleRiskState 10000 7 (some 5)) < 15/100 := by
    norm_num [getCurrentDrawdown, sampleRiskState]
  have hlen : (sampleRiskState 10000 7 (some 5)).openPositions.length < 3 := by
    simp [sampleRiskState]
  have hdate : (sampleRiskState 10000 7 (some 5)).lastTradeDate ≠ some 6 := by
    simp [sampleRiskState]
  exact ⟨hdd, hlen, hdate,
    ((can_open_frame_c10 _ (15/100) 3 10 6).2.2.2.2.2 hdd hlen hdate).1⟩

/-! ## EnsemblePredictor: weighted voting (`ensemble_predictor.py`,
lines 161-237) -/

/-- One source's vote in `EnsemblePredictor.predict`: the `contribution`
is added to the buy, sell or hold score according to the source's signal
(`1` buy, `-1` sell, anything else hold). -/
def addVote (scores : ℚ × ℚ × ℚ) (signal : ℤ) (contribution : ℚ) :
    ℚ × ℚ × ℚ :=
  if signal = 1 then (scores.1 + contribution, scores.2.1, scores.2.2)
  else if signal = -1 then (scores.1, scores.2.1 + contribution, scores.2.2)
  else (scores.1, scores.2.1, scores.2.2 + contribution)

/-- Embedding of the score accumulation of `EnsemblePredictor.predict`
(ensemble_predictor.py lines 170-197): the random-forest and LSTM sources
contribute `weight * confidence`, while the sentiment source contributes
its weight alone (lines 191-197 add `self.sentiment_weight` with no
confidence factor).  Returns `(buy_score, sell_score, hold_score)`. -/
def ensembleScores (rfS lstmS sentS : ℤ)
    (rfC lstmC wRF wLSTM wSent : ℚ) : ℚ × ℚ × ℚ :=
  addVote (addVote (addVote (0, 0, 0) rfS (wRF * rfC))
    lstmS (wLSTM * lstmC)) sentS wSent

/-- Embedding of the final-signal selection of `EnsemblePredictor.predict`
(ensemble_predictor.py lines 199-218): the largest score wins with
tie-break buy, then sell, then hold; a winning score below `min_confidence`
downgrades the signal to hold, keeping the sub-threshold confidence. -/
def ensembleDecision (scores : ℚ × ℚ × ℚ) (minConf : ℚ) : ℤ × ℚ :=
  let buy := scores.1
  let sell := scores.2.1
  let hold := scores.2.2
  let maxScore := max buy (max sell hold)
  let sigConf :=
    if maxScore = buy ∧ 0 < buy then ((1 : ℤ), buy)
    else if maxScore = sell ∧ 0 < sell then ((-1 : ℤ), sell)
    else ((0 : ℤ), hold)
  if sigConf.2 < minConf then (0, sigConf.2) else sigConf

/-- Full ensemble prediction `(final_signal, confidence)`. -/
def ensemblePredict (rfS lstmS sentS : ℤ)
    (rfC lstmC wRF wLSTM wSent minConf : ℚ) : ℤ × ℚ :=
  ensembleDecision (ensembleScores rfS lstmS sentS rfC lstmC wRF wLSTM wSent)
    minConf

/-- C3 counterexample: with three LONG sources, confidences 0.8, 0.7, 0.9
and equal normalized weights 1/3, the code's `buy_score` is 5/6 ≈ 0.833,
not the 0.8 the claim's per-source confidence-times-weight rule predicts:
the sentiment source's confidence 0.9 never enters the score, only its
weight does. -/
theorem ensemble_sentiment_vote_c3_counterexample :
    (ensembleScores 1 1 1 (8/10) (7/10) (1/3) (1/3) (1/3)).1 = 5/6
    ∧ (1/3 : ℚ) * (8/10) + (1/3) * (7/10) + (1/3) * (9/10) = 8/10
    ∧ (5/6 : ℚ) ≠ 8/10 := by
  refine ⟨?_, by norm_num, by norm_num⟩
  norm_num [ensembleScores, addVote]

/-- C3 (amended): each source contributes to exactly one of the three
scores — the tree and sequence models contribute `weight * confidence`,
the sentiment source its weight alone — so the three scores always sum to
`wRF * rfConf + wLSTM * lstmConf + wSent`.  For three LONG sources with
confidences 0.8 and 0.7 and equal weights 1/3 the scores are
`(5/6, 0, 0)`, and the final decision is LONG with confidence 5/6 when
`5/6 ≥ min_confidence`, else HOLD (confidence kept at 5/6). -/
theorem ensemble_fusion_c3 (rfS lstmS sentS : ℤ)
    (rfC lstmC wRF wLSTM wSent minConf : ℚ) :
    ((ensembleScores rfS lstmS sentS rfC lstmC wRF wLSTM wSent).1
        + (ensembleScores rfS lstmS sentS rfC lstmC wRF wLSTM wSent).2.1
        + (ensembleScores rfS lstmS sentS rfC lstmC wRF wLSTM wSent).2.2
      = wRF * rfC + wLSTM * lstmC + wSent)
    ∧ ensembleScores 1 1 1 (8/10) (7/10) (1/3) (1/3) (1/3) = (5/6, 0, 0)
    ∧ (minConf ≤ 5/6 →
        ensemblePredict 1 1 1 (8/10) (7/10) (1/3) (1/3) (1/3) minConf
          = (1, 5/6))
    ∧ (5/6 < minConf →
        ensemblePredict 1 1 1 (8/10) (7/10) (1/3) (1/3) (1/3) minConf
          = (0, 5/6)) := by
  have hsc : ensembleScores 1 1 1 (8/10) (7/10) (1/3) (1/3) (1/3)
      = (5/6, 0, 0) := by
    norm_num [ensembleScores, addVote]
  refine ⟨?_, hsc, ?_, ?_⟩
  · simp only [ensembleScores, addVote]
    split_ifs <;> simp <;> ring
  · intro h
    simp only [ensemblePredict, hsc, ensembleDecision]
    norm_num
    exact h
  · intro h
    simp only [ensemblePredict, hsc, ensembleDecision]
    norm_num
    exact h

/-- Witness for C3 (amended) at min_confidence 0.6 (the config default):
5/6 clears the threshold, so the decision is LONG. -/
theorem ensemble_fusion_c3_witness :
    (6/10 : ℚ) ≤ 5/6
    ∧ ensemblePredict 1 1 1 (8/10) (7/10) (1/3) (1/3) (1/3) (6/10)
        = (1, 5/6) :=
  ⟨by norm_num,
   (ensemble_fusion_c3 1 1 1 (8/10) (7/10) (1/3) (1/3) (1/3)
      (6/10)).2.2.1 (by norm_num)⟩

/-! ## Backtester: walk-forward slicing (`backtest.py`, lines 121-162) -/

/-- Embedding of `train_start = period * test_size` (backtest.py line 126). -/
def trainStart (testSize period : ℕ) : ℕ := period * testSize

/-- Embedding of `train_end = train_start + train_size` (backtest.py line
127). -/
def trainEnd (trainSize testSize period : ℕ) : ℕ :=
  trainStart testSize period + trainSize

/-- Embedding of `test_end = train_end + test_size` (backtest.py line
128). -/
def testEnd (trainSize testSize period : ℕ) : ℕ :=
  trainEnd trainSize testSize period + testSize

/-- Embedding of `train_data = all_data.iloc[train_start:train_end]`
(backtest.py line 131); rows are modelled as list elements. -/
def trainData {α : Type} (data : List α) (trainSize testSize period : ℕ) :
    List α :=
  (data.take (trainEnd trainSize testSize period)).drop
    (trainStart testSize period)

/-- Embedding of `test_data = all_data.iloc[train_end:test_end]`
(backtest.py line 132). -/
def testData {α : Type} (data : List α) (trainSize testSize period : ℕ) :
    List α :=
  (data.take (testEnd trainSize testSize period)).drop
    (trainEnd trainSize testSize period)

/-- C1: for every walk-forward period, row `i` of the training slice is
row `period * test_size + i` of the full data (defined exactly for
`i < train_size`), row `j` of the test slice is row `train_end + j`
(defined exactly for `j < test_size`), and every training index is
strictly below every test index — the model never observes a row with
index ≥ `train_end`. -/
theorem walk_forward_leakage_c1 {α : Type} (data : List α)
    (trainSize testSize period : ℕ) :
    (∀ i : ℕ, (trainData data trainSize testSize period)[i]?
        = if i < trainSize then data[trainStart testSize period + i]?
          else none)
    ∧ (∀ j : ℕ, (testData data trainSize testSize period)[j]?
        = if j < testSize then data[trainEnd trainSize testSize period + j]?
          else none)
    ∧ (∀ i j : ℕ, trainStart testSize period ≤ i →
        i < trainEnd trainSize testSize period →
        trainEnd trainSize testSize period ≤ j →
        j < testEnd trainSize testSize period → i < j) := by
  refine ⟨?_, ?_, ?_⟩
  · intro i
    rw [trainData, List.getElem?_drop, List.getElem?_take]
    by_cases h : i < trainSize
    · rw [if_pos h, if_pos]
      simp [trainEnd, h]
    · rw [if_neg h, if_neg]
      simp only [trainEnd, not_lt] at h ⊢
      omega
  · intro j
    rw [testData, List.getElem?_drop, List.getElem?_take]
    by_cases h : j < testSize
    · rw [if_pos h, if_pos]
      simp [testEnd, h]
    · rw [if_neg h, if_neg]
      simp only [testEnd, not_lt] at h ⊢
      omega
  · intro i j _ hi hj _
    exact lt_of_lt_of_le hi hj

/-- Witness for C1 on a concrete series of 8 rows with
train_size = 3, test_size = 2, period = 1: training rows are indices 2-4
of the data, test rows are indices 5-6, and index 4 < index 5. -/
theorem walk_forward_leakage_c1_witness :
    (trainData ([10, 11, 12, 13, 14, 15, 16, 17] : List ℤ) 3 2 1)[0]?
        = some 12
    ∧ (testData ([10, 11, 12, 13, 14, 15, 16, 17] : List ℤ) 3 2 1)[0]?
        = some 15
    ∧ trainStart 2 1 ≤ 4 ∧ 4 < trainEnd 3 2 1 ∧ trainEnd 3 2 1 ≤ 5
    ∧ 5 < testEnd 3 2 1 ∧ 4 < 5 := by
  have h := walk_forward_leakage_c1
    ([10, 11, 12, 13, 14, 15, 16, 17] : List ℤ) 3 2 1
  refine ⟨?_, ?_, by decide, by decide, by decide, by decide, ?_⟩
  · rw [h.1 0]; decide
  · rw [h.2.1 0]; decide
  · exact h.2.2 4 5 (by decide) (by decide) (by decide) (by decide)

/-! ## Backtester: per-bar replay sizing (`backtest.py`, lines 307-334) -/

/-- Embedding of the position sizing of `Backtester._backtest_period`
(backtest.py lines 312-314): `position_size = capital * risk_per_trade`,
`quantity = position_size / current_price`. -/
def backtestPositionSize (capital rpt price : ℚ) : ℚ × ℚ :=
  (capital * rpt, capital * rpt / price)

/-- Embedding of the replay's stop/target placement for a long entry
(backtest.py lines 317-319): stop at `price - 2 * ATR`, target at
`price + 3 * ATR`. -/
def backtestLongStops (price atr : ℚ) : ℚ × ℚ :=
  (price - 2 * atr, price + 3 * atr)

/-- C4 counterexample: at capital 10000, risk_per_trade 0.01,
max_position_fraction 0.1, entry 40000, ATR 500 (stop 39000), the replay
opens a notional of 100 while the RiskManager 'fixed' method returns a
notional of 1000 for the same inputs — the replay sizing is NOT the
fixed-fractional RiskManager sizing. -/
theorem backtest_sizing_c4_counterexample :
    (backtestPositionSize 10000 (1/100) 40000).1 = 100
    ∧ (fixedPositionSize 10000 (1/100) (1/10) 40000
        (backtestLongStops 40000 500).1).1 = 1000
    ∧ (100 : ℚ) ≠ 1000 := by
  refine ⟨by norm_num [backtestPositionSize], ?_, by norm_num⟩
  norm_num [fixedPositionSize, backtestLongStops, abs]

/-- C4 (amended): the replay sizes an entry at notional
`capital * risk_per_trade` — the risk amount taken directly as the
notional — which in general differs from the RiskManager fixed-fractional
notional `min (capital * rpt / (|entry - stop| / entry)) (capital * mps)`;
the two coincide exactly in the degenerate case where the stop distance
`2 * ATR` equals the entry price and the risk fraction does not exceed the
position cap. -/
theorem backtest_sizing_c4 (capital rpt mps entry atr : ℚ)
    (hentry : 0 < entry) (hatr : 0 < atr) (hcap : 0 ≤ capital)
    (hrpt : 0 ≤ rpt) :
    (backtestPositionSize capital rpt entry).1 = capital * rpt
    ∧ (backtestPositionSize capital rpt entry).2 = capital * rpt / entry
    ∧ (2 * atr = entry → rpt ≤ mps →
        (fixedPositionSize capital rpt mps entry
            (backtestLongStops entry atr).1).1
          = (backtestPositionSize capital rpt entry).1) := by
  refine ⟨rfl, rfl, fun h2atr hle => ?_⟩
  have hstop : (backtestLongStops entry atr).1 = 0 := by
    simp [backtestLongStops, ← h2atr]
  rw [hstop]
  have habs : |entry - 0| = entry := by
    rw [sub_zero]; exact abs_of_pos hentry
  have hne : |entry - 0| ≠ 0 := by rw [habs]; exact ne_of_gt hentry
  simp only [fixedPositionSize, if_neg hne, habs, backtestPositionSize]
  rw [if_neg (ne_of_gt hentry), div_self (ne_of_gt hentry), div_one]
  exact min_eq_left (mul_le_mul_of_nonneg_left hle hcap)

/-- Witness for C4 (amended): entry 1000, ATR 500 (so the stop distance
equals the entry), risk 1%, cap 10%: both sizings give notional 100. -/
theorem backtest_sizing_c4_witness :
    (0:ℚ) < 1000 ∧ (0:ℚ) < 500 ∧ (0:ℚ) ≤ 10000 ∧ (0:ℚ) ≤ 1/100
    ∧ (2 * (500:ℚ) = 1000)
    ∧ ((1/100 : ℚ) ≤ 1/10)
    ∧ (fixedPositionSize 10000 (1/100) (1/10) 1000
        (backtestLongStops 1000 500).1).1
      = (backtestPositionSize 10000 (1/100) 1000).1 :=
  ⟨by norm_num, by norm_num, by norm_num, by norm_num, by norm_num,
   by norm_num,
   (backtest_sizing_c4 10000 (1/100) (1/10) 1000 500
      (by norm_num) (by norm_num) (by norm_num) (by norm_num)).2.2
     (by norm_num) (by norm_num)⟩

/-! ## Backtester: period metrics (`backtest.py`, lines 285-289, 437-503) -/

/-- One intra-period trade close in `Backtester._backtest_period`
(backtest.py lines 287-289): `capital += pnl` then
`peak_capital = max(peak_capital, capital)`.  State is
`(capital, peak_capital)`. -/
def replayStep (st : ℚ × ℚ) (pnl : ℚ) : ℚ × ℚ :=
  (st.1 + pnl, max st.2 (st.1 + pnl))

/-- Capital and peak capital after replaying a period's trade-close PnLs
from the initial capital (backtest.py lines 241-242, 285-289). -/
def replayCloses (init : ℚ) (pnls : List ℚ) : ℚ × ℚ :=
  pnls.foldl replayStep (init, init)

/-- Embedding of the `max_drawdown` computation of
`Backtester._calculate_period_metrics` (backtest.py lines 454-464, 474):
zero for an empty trade list, else
`(peak_capital - final_capital) / peak_capital * 100` guarded by
`peak_capital > 0`. -/
def periodMaxDrawdown (numTrades : ℕ) (finalCap peakCap : ℚ) : ℚ :=
  if numTrades = 0 then 0
  else if 0 < peakCap then (peakCap - finalCap) / peakCap * 100 else 0

/-- The period's equity path: initial capital followed by the capital
after each trade close. -/
def equityPath (init : ℚ) (pnls : List ℚ) : List ℚ :=
  pnls.scanl (· + ·) init

/-- One step of the claim's peak-to-trough drawdown over an equity path:
track the running peak and the largest percentage decline from it. -/
def ddStep (st : ℚ × ℚ) (x : ℚ) : ℚ × ℚ :=
  (max st.1 x,
   max st.2 (if 0 < max st.1 x then (max st.1 x - x) / max st.1 x * 100
             else 0))

/-- Drawdown notion stated by the claim and the spec ("maximal
peak-to-trough decline over the whole equity path"): the maximum over
every point of the path of `(running peak - capital) / running peak`,
in percent. -/
def maxDrawdownPath (path : List ℚ) : ℚ :=
  (path.foldl ddStep (0, 0)).2

theorem replayCloses_fst (pnls : List ℚ) :
    ∀ c pk : ℚ, (pnls.foldl replayStep (c, pk)).1 = c + pnls.sum := by
  induction pnls with
  | nil => intro c pk; simp
  | cons p t ih =>
    intro c pk
    simp only [List.foldl_cons, List.sum_cons, replayStep]
    rw [ih]
    ring

theorem foldl_max_scanl_absorb (t : List ℚ) (c q : ℚ) :
    (t.scanl (· + ·) c).foldl max q
      = (t.scanl (· + ·) c).foldl max (max q c) := by
  cases t with
  | nil => simp [List.scanl, max_assoc]
  | cons a t' => simp [List.scanl, max_assoc]

theorem replayCloses_snd (pnls : List ℚ) :
    ∀ c pk : ℚ, c ≤ pk →
      (pnls.foldl replayStep (c, pk)).2
        = (pnls.scanl (· + ·) c).foldl max pk := by
  induction pnls with
  | nil =>
    intro c pk h
    simp [List.scanl, max_eq_left h]
  | cons p t ih =>
    intro c pk h
    simp only [List.foldl_cons, List.scanl_cons, replayStep]
    rw [ih (c + p) (max pk (c + p)) (le_max_right _ _),
        List.singleton_append, List.foldl_cons,
        foldl_max_scanl_absorb t (c + p) (max pk (c + p)),
        foldl_max_scanl_absorb t (c + p) (max pk c)]
    congr 1
    rw [max_eq_left h, max_assoc, max_self]

theorem ddFold_fst (l : List ℚ) :
    ∀ q m : ℚ, (l.foldl ddStep (q, m)).1 = l.foldl max q := by
  induction l with
  | nil => intro q m; rfl
  | cons a t ih => intro q m; simp only [List.foldl_cons, ddStep]; exact ih _ _

theorem ddFold_last_le (t : List ℚ) :
    ∀ c q m : ℚ,
      (if 0 < (t.scanl (· + ·) c).foldl max q
       then ((t.scanl (· + ·) c).foldl max q - (c + t.sum))
              / (t.scanl (· + ·) c).foldl max q * 100
       else 0)
      ≤ ((t.scanl (· + ·) c).foldl ddStep (q, m)).2 := by
  induction t with
  | nil =>
    intro c q m
    simp only [List.scanl, List.foldl_cons, List.foldl_nil, List.sum_nil,
      add_zero, ddStep]
    exact le_max_right _ _
  | cons p t' ih =>
    intro c q m
    simp only [List.scanl_cons, List.foldl_cons, List.sum_cons, ddStep]
    have := ih (c + p) (max q c)
      (max m (if 0 < max q c then (max q c - c) / max q c * 100 else 0))
    calc (if 0 < (t'.scanl (· + ·) (c + p)).foldl max (max q c)
          then ((t'.scanl (· + ·) (c + p)).foldl max (max q c)
                  - (c + (p + t'.sum)))
                / (t'.scanl (· + ·) (c + p)).foldl max (max q c) * 100
          else 0)
        = (if 0 < (t'.scanl (· + ·) (c + p)).foldl max (max q c)
          then ((t'.scanl (· + ·) (c + p)).foldl max (max q c)
                  - ((c + p) + t'.sum))
                / (t'.scanl (· + ·) (c + p)).foldl max (max q c) * 100
          else 0) := by rw [add_assoc]
      _ ≤ _ := this

/-- C5 counterexample: starting capital 10000 with trade PnLs
`[-1000, +2000]`, the equity path is `[10000, 9000, 11000]`; its maximal
peak-to-trough decline is 10%, but the reported `max_drawdown` is
`(peak - final)/peak = (11000 - 11000)/11000 = 0%` — the code reports only
the decline from the period's peak to its final capital. -/
theorem period_max_drawdown_c5_counterexample :
    periodMaxDrawdown 2 (replayCloses 10000 [-1000, 2000]).1
        (replayCloses 10000 [-1000, 2000]).2 = 0
    ∧ maxDrawdownPath (equityPath 10000 [-1000, 2000]) = 10
    ∧ (0 : ℚ) ≠ 10 := by
  refine ⟨?_, ?_, by norm_num⟩
  · norm_num [periodMaxDrawdown, replayCloses, replayStep]
  · norm_num [maxDrawdownPath, equityPath, List.scanl, ddStep]

/-- C5 (amended): the reported `max_drawdown` is the decline from the
period's running peak (over trade closes) to its FINAL capital, in
percent; the final capital is `init + sum(pnls)`, and the reported value
only lower-bounds the true maximal peak-to-trough decline over the
period's equity path (strictly, in the counterexample). -/
theorem period_max_drawdown_c5 (init : ℚ) (pnls : List ℚ)
    (hinit : 0 < init) (hne : pnls ≠ []) :
    (replayCloses init pnls).1 = init + pnls.sum
    ∧ periodMaxDrawdown pnls.length (replayCloses init pnls).1
        (replayCloses init pnls).2
      ≤ maxDrawdownPath (equityPath init pnls) := by
  have hfst : (replayCloses init pnls).1 = init + pnls.sum :=
    replayCloses_fst pnls init init
  refine ⟨hfst, ?_⟩
  have hsnd : (replayCloses init pnls).2
      = (pnls.scanl (· + ·) init).foldl max init :=
    replayCloses_snd pnls init init (le_refl init)
  have hseed : (pnls.scanl (· + ·) init).foldl max 0
      = (pnls.scanl (· + ·) init).foldl max init := by
    rw [foldl_max_scanl_absorb pnls init 0, max_eq_right (le_of_lt hinit)]
  have hlen : pnls.length ≠ 0 := by
    intro h; exact hne (List.eq_nil_of_length_eq_zero h)
  rw [periodMaxDrawdown, if_neg hlen, hfst, hsnd, maxDrawdownPath,
    equityPath, ← hseed]
  exact ddFold_last_le pnls init 0 0

/-- Witness for C5 (amended) on the counterexample data: the reported
drawdown 0 is below the path drawdown 10. -/
theorem period_max_drawdown_c5_witness :
    (0 : ℚ) < 10000 ∧ ([-1000, 2000] : List ℚ) ≠ []
    ∧ periodMaxDrawdown ([-1000, 2000] : List ℚ).length
        (replayCloses 10000 [-1000, 2000]).1
        (replayCloses 10000 [-1000, 2000]).2
      ≤ maxDrawdownPath (equityPath 10000 [-1000, 2000]) :=
  ⟨by norm_num, by simp,
   (period_max_drawdown_c5 10000 [-1000, 2000] (by norm_num) (by simp)).2⟩

/-! ## TradingExecutor: one loop iteration (`executor.py`, lines 258-287,
516-586, 696-728) -/

/-- Embedding of the exit phase of one `run_trading_loop` iteration
(executor.py lines 702-705 with `check_positions`, lines 516-586): every
active symbol whose stop-loss or take-profit fires — abstracted as the
oracle `exitFires` — is closed and removed from the active set. -/
def checkPositionsStep (active : List String) (exitFires : String → Bool) :
    List String :=
  active.filter (fun s => !(exitFires s))

/-- Embedding of one symbol's entry attempt in the per-symbol loop of
`run_trading_loop` (executor.py lines 708-724) via `generate_signal`
(lines 258-287): the ml-confidence, sentiment and residual risk gates are
abstracted as the oracle `sigPass`; the open-position-count gate and the
already-have-a-position gate are modelled exactly.  State is
`(active symbols, symbols opened this iteration)`. -/
def entryStep (sigPass : String → Bool) (maxPos : ℕ)
    (st : List String × List String) (sym : String) :
    List String × List String :=
  if st.1.length < maxPos ∧ sigPass sym = true ∧ sym ∉ st.1
  then (st.1 ++ [sym], st.2 ++ [sym])
  else st

/-- One full iteration of the trading loop: exit checks first, then the
per-symbol entry phase.  Returns the final active set and the list of
symbols newly opened during this iteration. -/
def tradingIteration (symbols active : List String)
    (exitFires sigPass : String → Bool) (maxPos : ℕ) :
    List String × List String :=
  symbols.foldl (entryStep sigPass maxPos)
    (checkPositionsStep active exitFires, [])

/-- C6 counterexample: symbol "BTC/USDT" has an open position, its exit
check fires (closing it), its signal passes all gates — and a NEW position
for it is opened in the very same iteration, because the close removed it
from the active set before the entry phase's membership check ran. -/
theorem loop_reentry_c6_counterexample :
    "BTC/USDT" ∈ ["BTC/USDT"]
    ∧ "BTC/USDT" ∉ checkPositionsStep ["BTC/USDT"] (fun _ => true)
    ∧ "BTC/USDT" ∈ (tradingIteration ["BTC/USDT"] ["BTC/USDT"]
        (fun _ => true) (fun _ => true) 3).2 := by
  refine ⟨by simp, by simp [checkPositionsStep], ?_⟩
  simp [tradingIteration, entryStep, checkPositionsStep]

theorem entry_fold_no_reentry (sigPass : String → Bool) (maxPos : ℕ)
    (symbols : List String) (A : List String) :
    ∀ acc op : List String, (∀ a ∈ A, a ∈ acc) → (∀ x ∈ op, x ∉ A) →
      ∀ x ∈ (symbols.foldl (entryStep sigPass maxPos) (acc, op)).2, x ∉ A := by
  induction symbols with
  | nil => intro acc op _ hop x hx; exact hop x hx
  | cons sym t ih =>
    intro acc op hsub hop x hx
    simp only [List.foldl_cons] at hx
    by_cases hc : acc.length < maxPos ∧ sigPass sym = true ∧ sym ∉ acc
    · have hstep : entryStep sigPass maxPos (acc, op) sym
          = (acc ++ [sym], op ++ [sym]) := by
        simp only [entryStep, if_pos hc]
      rw [hstep] at hx
      refine ih (acc ++ [sym]) (op ++ [sym])
        (fun a ha => List.mem_append_left _ (hsub a ha)) ?_ x hx
      intro y hy
      rcases List.mem_append.mp hy with hyop | hysym
      · exact hop y hyop
      · have : y = sym := by simpa using hysym
        subst this
        intro hyA
        exact hc.2.2 (hsub y hyA)
    · have hstep : entryStep sigPass maxPos (acc, op) sym = (acc, op) := by
        simp only [entryStep, if_neg hc]
      rw [hstep] at hx
      exact ih acc op hsub hop x hx

/-- C6 (amended): a symbol whose position SURVIVES the exit check is never
opened again within the same iteration; but a symbol whose position the
exit check closed may be re-opened later in that same iteration (the
counterexample exhibits this), since the close removes it from the active
set before the entry phase's membership gate runs. -/
theorem no_reentry_while_open_c6 (symbols active : List String)
    (exitFires sigPass : String → Bool) (maxPos : ℕ) (s : String)
    (h : s ∈ checkPositionsStep active exitFires) :
    s ∉ (tradingIteration symbols active exitFires sigPass maxPos).2 := by
  intro hmem
  exact entry_fold_no_reentry sigPass maxPos symbols
    (checkPositionsStep active exitFires)
    (checkPositionsStep active exitFires) []
    (fun a ha => ha) (by simp) s hmem h

/-- Witness for C6 (amended): "ETH/USDT" stays open (its exit does not
fire), so it is not re-opened in the iteration. -/
theorem no_reentry_while_open_c6_witness :
    "ETH/USDT" ∈ checkPositionsStep ["ETH/USDT"] (fun _ => false)
    ∧ "ETH/USDT" ∉ (tradingIteration ["ETH/USDT"] ["ETH/USDT"]
        (fun _ => false) (fun _ => true) 3).2 :=
  ⟨by simp [checkPositionsStep],
   no_reentry_while_open_c6 ["ETH/USDT"] ["ETH/USDT"]
     (fun _ => false) (fun _ => true) 3 "ETH/USDT"
     (by simp [checkPositionsStep])⟩

end AiCryptoBot
